import Mathlib

/-!
Shallow embedding of the opspec annotation parser (`src/spec-parser.ts`) and
static verifier (`src/verifier.ts`).  Strings are modelled as Lean `String`
over their character lists; the JS regular expressions used by the source are
translated into explicit, executable scans whose behaviour is derived from
the anchoring/greediness semantics of the concrete patterns.  JS character
classes (`\s`, `\w`, line terminators) are modelled on the ASCII range plus
the two Unicode line separators; all annotation text handled by the tool is
single-line ASCII source text.
-/

set_option linter.unusedVariables false

namespace Opspec

/-- Verification status values (`types.ts`, `VerificationStatus`). -/
inductive VStatus where
  | VERIFIED
  | UNVERIFIED
  | VIOLATED
  | MISSING
deriving Repr, DecidableEq

/-- Recognised spec tags (`types.ts`, `SpecTag`). -/
inductive SpecTag where
  | invariant
  | pre
  | requires
  | post
  | ensures
  | state
  | access
  | calls
  | temporal
  | opnet
deriving Repr, DecidableEq

/-! ## JS string primitives -/

/-- ASCII members of the JS `\s` class (used by `\s`, `trim`, `split(/\s+/)`). -/
def isJsSpace (c : Char) : Bool :=
  c = ' ' || c = '\t' || c = '\n' || c = '\r' || c = '\x0b' || c = '\x0c'

/-- JS line terminators: the characters a regex `.` does not match. -/
def isLineTerm (c : Char) : Bool :=
  c = '\n' || c = '\r' || c = '\u2028' || c = '\u2029'

/-- Does `pat` occur at the head of `l`? -/
def atHead : List Char → List Char → Bool
  | [], _ => true
  | _ :: _, [] => false
  | p :: ps, c :: cs => p == c && atHead ps cs

/-- Substring containment on character lists (JS `String.prototype.includes`). -/
def hasSub : List Char → List Char → Bool
  | [], pat => pat.isEmpty
  | c :: cs, pat => atHead pat (c :: cs) || hasSub cs pat

/-- JS `haystack.includes(needle)`. -/
def strContains (s pat : String) : Bool := hasSub s.data pat.data

/-- Does `l` end with `suf`? -/
def endsL (l suf : List Char) : Bool := atHead suf.reverse l.reverse

/-- JS `String.prototype.trim` on character lists. -/
def trimL (l : List Char) : List Char :=
  ((l.dropWhile isJsSpace).reverse.dropWhile isJsSpace).reverse

/-- JS `String.prototype.trim`. -/
def jsTrim (s : String) : String := ⟨trimL s.data⟩

def lowerChar (c : Char) : Char :=
  if 'A' ≤ c ∧ c ≤ 'Z' then Char.ofNat (c.toNat + 32) else c

def upperChar (c : Char) : Char :=
  if 'a' ≤ c ∧ c ≤ 'z' then Char.ofNat (c.toNat - 32) else c

/-- JS `toLowerCase` (ASCII). -/
def jsToLower (s : String) : String := ⟨s.data.map lowerChar⟩

/-- JS `toUpperCase` (ASCII). -/
def jsToUpper (s : String) : String := ⟨s.data.map upperChar⟩

/-- JS `String.prototype.split` with a single-character separator. -/
def splitOnChar (sep : Char) : List Char → List (List Char)
  | [] => [[]]
  | c :: rest =>
    if c = sep then [] :: splitOnChar sep rest
    else
      match splitOnChar sep rest with
      | t :: ts => (c :: t) :: ts
      | [] => [[c]]

mutual
/-- JS `String.prototype.split(/\s+/)`: the piece being accumulated is `acc`
(reversed).  A separator is a maximal nonempty whitespace run; a leading or
trailing run contributes an empty piece, as in JS. -/
def wsSplitGo : List Char → List Char → List (List Char)
  | [], acc => [acc.reverse]
  | c :: rest, acc =>
    if isJsSpace c then acc.reverse :: wsSplitSkip rest
    else wsSplitGo rest (c :: acc)

/-- Skips the rest of a whitespace separator run for `wsSplitGo`. -/
def wsSplitSkip : List Char → List (List Char)
  | [] => [[]]
  | c :: rest => if isJsSpace c then wsSplitSkip rest else wsSplitGo rest [c]
end

/-- JS `s.split(/\s+/)`. -/
def wsSplit (s : String) : List String :=
  (wsSplitGo s.data []).map fun l => ⟨l⟩

/-- JS `\w` (ASCII word character). -/
def isWordChar (c : Char) : Bool := c.isAlpha || c.isDigit || c = '_'

/-- `replace(/^this\./, '')`. -/
def dropThisDot (l : List Char) : List Char :=
  if atHead "this.".data l then l.drop 5 else l

/-- `replace(/\.value$/, '')`. -/
def dropDotValue (l : List Char) : List Char :=
  if endsL l ".value".data then l.take (l.length - 6) else l

/-! ## Extraction helpers from `verifier.ts` and `spec-parser.ts` -/

/-- `verifier.ts` `extractKeyTerms`: replace `[!()=<>]` by spaces, split on
whitespace runs, keep tokens longer than 2, strip `this.` / `.value`. -/
def extractKeyTerms (expr : String) : List String :=
  let cleaned : List Char := expr.data.map fun c =>
    if c = '!' || c = '(' || c = ')' || c = '=' || c = '<' || c = '>' then ' ' else c
  ((wsSplitGo cleaned []).filter fun t => 2 < t.length).map fun t =>
    (⟨dropDotValue (dropThisDot t)⟩ : String)

theorem dropWhile_len_le (p : Char → Bool) (l : List Char) :
    (l.dropWhile p).length ≤ l.length := by
  induction l with
  | nil => simp [List.dropWhile]
  | cons c cs ih =>
    simp only [List.dropWhile]
    split
    · exact Nat.le_succ_of_le ih
    · simp

/-- `verifier.ts` `extractFieldRefsFromExpr`: every match of `/this\.(\w+)/g`,
scanning left to right and resuming after each match. -/
def extractFieldRefsL (l : List Char) : List String :=
  if h : l = [] then []
  else
    if atHead "this.".data l && isWordChar ((l.drop 5).headD ' ') then
      let w := (l.drop 5).takeWhile isWordChar
      (⟨'t' :: 'h' :: 'i' :: 's' :: '.' :: w⟩ : String) ::
        extractFieldRefsL ((l.drop 5).dropWhile isWordChar)
    else extractFieldRefsL (l.drop 1)
termination_by l.length
decreasing_by
  · have h1 := dropWhile_len_le isWordChar (l.drop 5)
    have h2 : (l.drop 5).length = l.length - 5 := List.length_drop 5 l
    have h3 : 0 < l.length := List.length_pos.mpr h
    omega
  · have h3 : 0 < l.length := List.length_pos.mpr h
    simp only [List.length_drop]
    omega

/-- `verifier.ts` `extractFieldRefsFromExpr`. -/
def extractFieldRefsFromExpr (expr : String) : List String :=
  extractFieldRefsL expr.data

/-- `spec-parser.ts` `extractOldReferences`: every capture of
`/old\(([^)]+)\)/g`, trimmed, resuming after each match. -/
def extractOldRefsL (l : List Char) : List String :=
  if h : l = [] then []
  else
    let cap := (l.drop 4).takeWhile fun c => c ≠ ')'
    let rest := (l.drop 4).dropWhile fun c => c ≠ ')'
    if atHead "old(".data l && !cap.isEmpty && !rest.isEmpty then
      jsTrim ⟨cap⟩ :: extractOldRefsL (rest.drop 1)
    else extractOldRefsL (l.drop 1)
termination_by l.length
decreasing_by
  · have h1 := dropWhile_len_le (fun c => c ≠ ')') (l.drop 4)
    have h3 : 0 < l.length := List.length_pos.mpr h
    simp only [List.length_drop] at h1 ⊢
    omega
  · have h3 : 0 < l.length := List.length_pos.mpr h
    simp only [List.length_drop]
    omega

def extractOldReferences (expr : String) : List String :=
  extractOldRefsL expr.data

/-- `spec-parser.ts` `extractFieldReferences` scan: every capture of
`/this\.(\w+)\.value/g`, resuming after each match.  The captured group is
the maximal word run after `this.` and must be followed by `.value`. -/
def extractFieldRefsValueL (l : List Char) : List String :=
  if h : l = [] then []
  else
    let w := (l.drop 5).takeWhile isWordChar
    let rest := (l.drop 5).dropWhile isWordChar
    if atHead "this.".data l && !w.isEmpty && atHead ".value".data rest then
      (⟨w⟩ : String) :: extractFieldRefsValueL (rest.drop 6)
    else extractFieldRefsValueL (l.drop 1)
termination_by l.length
decreasing_by
  · have h1 := dropWhile_len_le isWordChar (l.drop 5)
    have h3 : 0 < l.length := List.length_pos.mpr h
    simp only [List.length_drop] at h1 ⊢
    omega
  · have h3 : 0 < l.length := List.length_pos.mpr h
    simp only [List.length_drop]
    omega

/-- Order-preserving deduplication (`[...new Set(refs)]`). -/
def dedupGo : List String → List String → List String
  | _, [] => []
  | seen, x :: xs =>
    if seen.contains x then dedupGo seen xs else x :: dedupGo (x :: seen) xs

/-- `spec-parser.ts` `extractFieldReferences`. -/
def extractFieldReferences (expr : String) : List String :=
  dedupGo [] (extractFieldRefsValueL expr.data)

/-! ## Comment stripping (`verifier.ts` `stripComments`) -/

/-- `replace(/\/\/.*$/gm, '')`: each `//` and everything up to (not
including) the next line terminator is removed. -/
def stripLineComments : List Char → List Char
  | [] => []
  | '/' :: '/' :: rest =>
    stripLineComments (rest.dropWhile fun c => !isLineTerm c)
  | c :: rest => c :: stripLineComments rest
termination_by l => l.length
decreasing_by
  · have h1 := dropWhile_len_le (fun c => !isLineTerm c) rest
    simp only [List.length_cons]
    omega
  · simp

/-- Consume up to and including the next `*/`, if any. -/
def dropToClose : List Char → Option (List Char)
  | [] => none
  | c :: rest =>
    if c = '*' && atHead ['/'] rest then some (rest.drop 1) else dropToClose rest

theorem dropToClose_length : ∀ l r, dropToClose l = some r → r.length < l.length := by
  intro l
  induction l with
  | nil => intro r hr; simp [dropToClose] at hr
  | cons c cs ih =>
    intro r hr
    simp only [dropToClose] at hr
    split at hr
    · have hrr : r = cs.drop 1 := by
        injection hr with h1
        exact h1.symm
      subst hrr
      simp only [List.length_drop, List.length_cons]
      omega
    · have := ih r hr
      simp only [List.length_cons]
      omega

/-- `replace(/\/\*[\s\S]*?\*\//g, '')`: each `/*` paired with the nearest
following `*/` is removed; an unclosed `/*` is left untouched. -/
def stripBlockComments : List Char → List Char
  | [] => []
  | '/' :: '*' :: rest =>
    match h : dropToClose rest with
    | some rest2 => stripBlockComments rest2
    | none => '/' :: '*' :: rest
  | c :: rest => c :: stripBlockComments rest
termination_by l => l.length
decreasing_by
  · have := dropToClose_length rest rest2 h
    simp only [List.length_cons]
    omega
  · simp

/-- `verifier.ts` `stripComments`: line comments removed first, then block
comments. -/
def stripComments (s : String) : String :=
  ⟨stripBlockComments (stripLineComments s.data)⟩

/-! ## The `@state` grammar (`spec-parser.ts` `parseStateTransition`) -/

structure StateTransition where
  fromState : String
  toState : String
  methods : List String
  condition : Option String
deriving Repr, DecidableEq

/-- Length of the whitespace run at the head of `l`. -/
def wsRunLen (l : List Char) : Nat := (l.takeWhile isJsSpace).length

/-- No line terminators anywhere in `l` (a run of regex `.` can cover it). -/
def noLT (l : List Char) : Bool := l.all fun c => !isLineTerm c

/-- Can `\s*(.+)$` consume `u`?  The dot run must be nonempty and free of
line terminators; the whitespace prefix absorbs as much as possible. -/
def dotTailOk (u : List Char) : Bool :=
  !u.isEmpty && noLT (u.drop (min (wsRunLen u) (u.length - 1)))

/-- The anchored match of `/^([^\->]+)\s*->\s*([^:]+):\s*(.+)$/`: group 1 is
the text before the first `-`/`>` character, which must be a `-` at index
≥ 1 immediately followed by `>`; group 2 is the text between `->` and the
first following `:`, which must be nonempty; group 3 is the text after that
`:`, which must satisfy `\s*(.+)$`.  All three groups are consumed trimmed
by the caller, so the whitespace split between adjacent subpatterns is
immaterial and each group is returned as the full span. -/
def stMainMatch (s : List Char) : Option (List Char × List Char × List Char) :=
  let i := (s.takeWhile fun c => !(c = '-' || c = '>')).length
  if 1 ≤ i ∧ (s.drop i).take 2 = ['-', '>'] then
    let after := s.drop (i + 2)
    let j := (after.takeWhile fun c => !(c = ':')).length
    if 1 ≤ j ∧ j < after.length then
      let rest0 := after.drop (j + 1)
      if dotTailOk rest0 then some (s.take i, after.take j, rest0)
      else none
    else none
  else none

/-- One attempted match of `/\[when\s+(.+)\]$/` at offset `p` of `rest`:
`[when` at `p`, a final `]`, and between them a nonempty whitespace run
followed by a nonempty line-terminator-free dot run. -/
def condAtP (rest : List Char) (p : Nat) : Bool :=
  let suf := rest.drop p
  atHead "[when".data suf &&
  rest.getLast? == some ']' &&
  (let mid := (suf.drop 5).dropLast
   let k := min (wsRunLen mid) (mid.length - 1)
   decide (1 ≤ k) && noLT (mid.drop k))

/-- Leftmost offset at which `/\[when\s+(.+)\]$/` matches inside `rest`. -/
def condScanGo (rest : List Char) : Nat → List Char → Option Nat
  | _, [] => none
  | p, _ :: t => if condAtP rest p then some p else condScanGo rest (p + 1) t

/-- `replace(/\(\)$/, '')`. -/
def stripParens (s : String) : String :=
  if endsL s.data "()".data then ⟨s.data.take (s.data.length - 2)⟩ else s

/-- `spec-parser.ts` `parseStateTransition`. -/
def parseStateTransition (expr : String) : StateTransition :=
  let t := jsTrim expr
  match stMainMatch t.data with
  | none => { fromState := "?", toState := "?", methods := [], condition := some t }
  | some (g1, g2, g3) =>
    let fromState := jsTrim ⟨g1⟩
    let toState := jsTrim ⟨g2⟩
    let rest := jsTrim ⟨g3⟩
    let condRest : Option String × String :=
      match condScanGo rest.data 0 rest.data with
      | some p =>
        (some (jsTrim ⟨((rest.data.drop p).drop 5).dropLast⟩), jsTrim ⟨rest.data.take p⟩)
      | none => (none, rest)
    let methods :=
      ((splitOnChar ',' condRest.2.data).map fun m => stripParens (jsTrim ⟨m⟩)).filter
        fun m => m ≠ ""
    { fromState, toState, methods, condition := condRest.1 }

/-! ## The spec data model (`types.ts`) -/

/-- A parsed spec annotation.  `uid` models the JS object identity of the
record produced by the parser: distinct parsed annotations are distinct
objects, which the verifier compares with `===`. -/
structure SpecAnn where
  uid : Nat
  tag : SpecTag
  expression : String
  comment : Option String
  file : String
  line : Nat
  column : Nat
deriving Repr, DecidableEq

structure InvariantSpec where
  base : SpecAnn
  fieldReferences : List String
deriving Repr, DecidableEq

structure PreconditionSpec where
  base : SpecAnn
  methodName : String
deriving Repr, DecidableEq

structure PostconditionSpec where
  base : SpecAnn
  methodName : String
  isCEI : Bool
  oldReferences : List String
  fieldReferences : List String
deriving Repr, DecidableEq

structure StateSpec where
  base : SpecAnn
  transition : StateTransition
deriving Repr, DecidableEq

structure AccessSpec where
  base : SpecAnn
  level : String
  methodName : String
deriving Repr, DecidableEq

structure CallsSpec where
  base : SpecAnn
  target : String
  calledMethod : String
  expectation : String
  methodName : String
deriving Repr, DecidableEq

structure TemporalSpec where
  base : SpecAnn
  subject : String
  condition : String
deriving Repr, DecidableEq

structure OpnetSpec where
  base : SpecAnn
  constraint : String
deriving Repr, DecidableEq

structure MethodSpecs where
  methodName : String
  preconditions : List PreconditionSpec
  postconditions : List PostconditionSpec
  access : Option AccessSpec
  calls : List CallsSpec
  stateTransitions : List StateSpec
  temporal : List TemporalSpec
deriving Repr, DecidableEq

structure ContractSpecs where
  className : String
  file : String
  invariants : List InvariantSpec
  stateTransitions : List StateSpec
  opnetConstraints : List OpnetSpec
  methods : List (String × MethodSpecs)
deriving Repr, DecidableEq

/-! ## The `@calls` grammar (`spec-parser.ts` `parseCallsSpec`)

The pattern is `/^(.+?)\s*:\s*(.+?)\s*->\s*(.+)$/` on the trimmed
expression: the lazy groups make the engine try each `:` from the left
(at offset ≥ 1), and for each, each subsequent `->` (leaving at least one
character after the `:`), until the `\s*(.+)$` tail matches.  All groups
are trimmed by the construction, so each is returned as its full span. -/

/-- First offset `p ≥ 1` in `after` holding `->` whose tail matches. -/
def arrowScanGo (after : List Char) : Nat → List Char → Option Nat
  | _, [] => none
  | p, _ :: t =>
    if 1 ≤ p ∧ (after.drop p).take 2 = ['-', '>'] ∧ dotTailOk (after.drop (p + 2)) = true
    then some p
    else arrowScanGo after (p + 1) t

/-- First workable `:` offset `k ≥ 1` in `s`, paired with the `->` offset in
the remainder after that `:`. -/
def colonScanGo (s : List Char) : Nat → List Char → Option (Nat × Nat)
  | _, [] => none
  | k, _ :: t =>
    if 1 ≤ k ∧ (s.drop k).headD ' ' = ':' then
      match arrowScanGo (s.drop (k + 1)) 0 (s.drop (k + 1)) with
      | some p => some (k, p)
      | none => colonScanGo s (k + 1) t
    else colonScanGo s (k + 1) t

/-- `spec-parser.ts` `parseCallsSpec` (the TS source receives the location
fields of the owning annotation separately; here they travel in `ann`). -/
def parseCallsSpec (ann : SpecAnn) (methodName : String) : CallsSpec :=
  let t := jsTrim ann.expression
  match colonScanGo t.data 0 t.data with
  | none =>
    { base := { ann with tag := .calls }, target := t, calledMethod := ""
      expectation := "", methodName }
  | some (k, p) =>
    let afterColon := t.data.drop (k + 1)
    { base := { ann with tag := .calls }
      target := jsTrim ⟨t.data.take k⟩
      calledMethod := jsTrim ⟨afterColon.take p⟩
      expectation := jsTrim ⟨afterColon.drop (p + 2)⟩
      methodName }

/-! ## `spec-parser.ts` `buildMethodSpecs` -/

/-- One iteration of the `buildMethodSpecs` annotation switch. -/
def buildMethodSpecsStep (methodName : String) (specs : MethodSpecs) (ann : SpecAnn) :
    MethodSpecs :=
  match ann.tag with
  | .pre | .requires =>
    { specs with preconditions := specs.preconditions ++ [{ base := ann, methodName }] }
  | .post =>
    { specs with postconditions := specs.postconditions ++
        [{ base := { ann with tag := .post }, methodName, isCEI := false
           oldReferences := extractOldReferences ann.expression
           fieldReferences := extractFieldReferences ann.expression }] }
  | .ensures =>
    let isCEI : Bool := jsToUpper (jsTrim ann.expression) == "CEI"
    { specs with postconditions := specs.postconditions ++
        [{ base := { ann with tag := .ensures }, methodName, isCEI
           oldReferences := if isCEI then [] else extractOldReferences ann.expression
           fieldReferences := if isCEI then [] else extractFieldReferences ann.expression }] }
  | .access =>
    { specs with access := some ({ base := { ann with tag := .access },
                                   level := jsTrim ann.expression, methodName }) }
  | .calls =>
    { specs with calls := specs.calls ++ [parseCallsSpec ann methodName] }
  | .state =>
    { specs with stateTransitions := specs.stateTransitions ++
        [{ base := { ann with tag := .state }
           transition := parseStateTransition ann.expression }] }
  | .temporal =>
    { specs with temporal := specs.temporal ++
        [{ base := { ann with tag := .temporal }
           subject := (wsSplit ann.expression).headD ""
           condition := ann.expression }] }
  | _ => specs

/-- `spec-parser.ts` `buildMethodSpecs` (the `fileName` parameter is unused
in the source as well). -/
def buildMethodSpecs (methodName : String) (annotationList : List SpecAnn)
    (fileName : String) : MethodSpecs :=
  annotationList.foldl (buildMethodSpecsStep methodName)
    { methodName, preconditions := [], postconditions := [], access := none
      calls := [], stateTransitions := [], temporal := [] }

/-! ## The syntax-tree model and evidence extractors (`ast-utils.ts`)

The TypeScript syntax tree is an external collaborator; following the
design's injected-interface view of the evidence extractors, a method
declaration carries the data the pure AST queries of `ast-utils.ts` return
for it: its body text (`getMethodBodyText`), its `Blockchain.call()` sites
(`findBlockchainCalls`), its candidate state-write sites before the
stored-field filter (the walk of `findStateWrites`, which keeps an
assignment `this.<f>.value = …` or a call `this.<f>.set(…)`; the membership
test against the stored-field set is applied here, as in the source), and
its top-level guard checks (`findGuardChecks`). -/

structure CallSite where
  pos : Nat
  text : String
deriving Repr, DecidableEq

structure WriteSite where
  pos : Nat
  field : String
  text : String
deriving Repr, DecidableEq

structure GuardCheck where
  condition : String
  message : String
  pos : Nat
deriving Repr, DecidableEq

structure MethodDecl where
  name : String
  bodyText : String
  blockchainCalls : List CallSite
  writeSites : List WriteSite
  guardChecks : List GuardCheck
deriving Repr, DecidableEq

structure ClassDecl where
  name : String
  text : String
  methods : List MethodDecl
  storedFieldNames : List String
deriving Repr, DecidableEq

structure SourceFileModel where
  classes : List ClassDecl
deriving Repr, DecidableEq

def findClassDeclarations (sf : SourceFileModel) : List ClassDecl := sf.classes

def getClassName (c : ClassDecl) : String := c.name

def getClassMethods (c : ClassDecl) : List MethodDecl := c.methods

def getMethodName (m : MethodDecl) : String := m.name

def getMethodBodyText (m : MethodDecl) : String := m.bodyText

def findBlockchainCalls (m : MethodDecl) : List CallSite := m.blockchainCalls

/-- `ast-utils.ts` `findStateWrites`: keep the candidate writes whose field
is in the stored-field set. -/
def findStateWrites (m : MethodDecl) (storedFields : List String) : List WriteSite :=
  m.writeSites.filter fun w => storedFields.contains w.field

def findGuardChecks (m : MethodDecl) : List GuardCheck := m.guardChecks

/-- Key set of `ast-utils.ts` `detectStoredFields` for the class. -/
def detectStoredFieldNames (c : ClassDecl) : List String := c.storedFieldNames

/-! ## Verification results (`types.ts`, `verifier.ts` `makeResult`) -/

structure VerificationResult where
  spec : SpecAnn
  status : VStatus
  message : String
  details : Option String
  file : String
  line : Nat
deriving Repr, DecidableEq

def makeResult (spec : SpecAnn) (status : VStatus) (message : String)
    (details : Option String) : VerificationResult :=
  { spec, status, message, details, file := spec.file, line := spec.line }

structure ReportSummary where
  verified : Nat
  unverified : Nat
  violated : Nat
  missing : Nat
  total : Nat
deriving Repr, DecidableEq

structure VerificationReport where
  contractName : String
  file : String
  results : List VerificationResult
  summary : ReportSummary
deriving Repr, DecidableEq

/-- One iteration of the `buildReport` counting switch. -/
def tallyStep (s : ReportSummary) (r : VerificationResult) : ReportSummary :=
  match r.status with
  | .VERIFIED => { s with verified := s.verified + 1 }
  | .UNVERIFIED => { s with unverified := s.unverified + 1 }
  | .VIOLATED => { s with violated := s.violated + 1 }
  | .MISSING => { s with missing := s.missing + 1 }

/-- `verifier.ts` `buildReport`. -/
def buildReport (contract : ContractSpecs) (results : List VerificationResult) :
    VerificationReport :=
  { contractName := contract.className
    file := contract.file
    results
    summary := results.foldl tallyStep
      { verified := 0, unverified := 0, violated := 0, missing := 0
        total := results.length } }

/-! ## Individual verifier functions (`verifier.ts`) -/

/-- `verifier.ts` `verifyAccess`. -/
def verifyAccess (accessSpec : AccessSpec) (method : MethodDecl) : VerificationResult :=
  let bodyText := getMethodBodyText method
  let level := jsToLower accessSpec.level
  if level = "deployer-only" then
    let bodyNoComments := stripComments bodyText
    let hasDeployerCheck :=
      strContains bodyNoComments "onlyDeployer" ||
      strContains bodyNoComments "this.onlyDeployer"
    if hasDeployerCheck then
      makeResult accessSpec.base .VERIFIED
        ("Method " ++ accessSpec.methodName ++ "() has onlyDeployer check") none
    else
      let hasSenderCheck :=
        strContains bodyNoComments "Blockchain.tx.sender" &&
        (strContains bodyNoComments "deployer" || strContains bodyNoComments "owner")
      if hasSenderCheck then
        makeResult accessSpec.base .VERIFIED
          ("Method " ++ accessSpec.methodName ++ "() has sender/deployer comparison") none
      else
        makeResult accessSpec.base .VIOLATED
          ("Method " ++ accessSpec.methodName ++
            "() is specified as deployer-only but has no onlyDeployer() call")
          (some "Add this.onlyDeployer(Blockchain.tx.sender) at the start of the method")
  else if level = "owner-only" then
    let bodyNoComments := stripComments bodyText
    let hasOwnerCheck :=
      strContains bodyNoComments "ensureOwner" ||
      strContains bodyNoComments "this.ensureOwner" ||
      strContains bodyNoComments "onlyOwner" ||
      strContains bodyNoComments "this.onlyOwner"
    if hasOwnerCheck then
      makeResult accessSpec.base .VERIFIED
        ("Method " ++ accessSpec.methodName ++ "() has owner check") none
    else
      let hasManualOwnerCheck :=
        strContains bodyNoComments "this.owner.value" &&
        strContains bodyNoComments "Blockchain.tx.sender"
      if hasManualOwnerCheck then
        makeResult accessSpec.base .VERIFIED
          ("Method " ++ accessSpec.methodName ++ "() has manual owner comparison") none
      else
        makeResult accessSpec.base .VIOLATED
          ("Method " ++ accessSpec.methodName ++
            "() is specified as owner-only but has no owner check")
          (some "Add this.ensureOwner() or owner comparison at the start of the method")
  else if level = "anyone" then
    let hasRestriction :=
      strContains bodyText "onlyDeployer" ||
      strContains bodyText "ensureOwner" ||
      strContains bodyText "onlyOwner"
    if hasRestriction then
      makeResult accessSpec.base .VIOLATED
        ("Method " ++ accessSpec.methodName ++
          "() is specified as @access anyone but has access restriction") none
    else
      makeResult accessSpec.base .VERIFIED
        ("Method " ++ accessSpec.methodName ++
          "() has no access restrictions (open to anyone)") none
  else
    makeResult accessSpec.base .UNVERIFIED ("Unknown access level: " ++ level) none

/-- Guard helper names consulted for status/state preconditions. -/
def guardHelpers : List String :=
  ["ensureActive", "ensureOwner", "requireActive", "requireStatus",
   "onlyActive", "onlyDeployer"]

/-- The fuzzy key-term guard match of `verifyPrecondition`: at least one and
at least half (`Math.ceil(len * 0.5)` = `(len + 1) / 2`) of the
precondition's key terms occur among the guard condition's key terms. -/
def fuzzyGuardMatch (keyTerms : List String) (g : GuardCheck) : Bool :=
  let guardTerms := extractKeyTerms g.condition
  let matchCount := (keyTerms.filter fun t => guardTerms.contains t).length
  decide (0 < matchCount ∧ (keyTerms.length + 1) / 2 ≤ matchCount)

/-- `verifier.ts` `verifyPrecondition`. -/
def verifyPrecondition (preSpec : PreconditionSpec) (method : MethodDecl) :
    VerificationResult :=
  let expr := jsTrim preSpec.base.expression
  let bodyText := getMethodBodyText method
  let guards := findGuardChecks method
  if strContains expr "ensureOwner" || strContains expr "onlyDeployer" then
    if strContains bodyText "ensureOwner" || strContains bodyText "onlyDeployer" then
      makeResult preSpec.base .VERIFIED ("Precondition guard found: " ++ expr) none
    else
      makeResult preSpec.base .VIOLATED ("Missing guard for precondition: " ++ expr) none
  else if strContains expr "ensureActive" then
    if strContains bodyText "ensureActive" then
      makeResult preSpec.base .VERIFIED ("Precondition guard found: " ++ expr) none
    else
      makeResult preSpec.base .VIOLATED ("Missing guard for precondition: " ++ expr) none
  else
    match (if strContains expr "status" || strContains expr "STATUS" ||
              strContains expr "state"
           then guardHelpers.find? fun h => strContains bodyText h
           else none) with
    | some helper =>
      makeResult preSpec.base .UNVERIFIED
        ("Precondition \"" ++ expr ++ "\" may be enforced by " ++ helper ++
          "() call — needs deeper call-graph analysis") none
    | none =>
      let keyTerms := extractKeyTerms expr
      match guards.find? (fuzzyGuardMatch keyTerms) with
      | some guard =>
        makeResult preSpec.base .VERIFIED
          ("Precondition \"" ++ expr ++ "\" matched by guard: " ++ guard.condition) none
      | none =>
        let fieldRefs := extractFieldRefsFromExpr expr
        let bodyHasFields := fieldRefs.all fun f => strContains bodyText f
        let bodyHasRevert := strContains bodyText "Revert"
        if bodyHasFields && bodyHasRevert then
          makeResult preSpec.base .UNVERIFIED
            ("Method references fields from precondition \"" ++ expr ++
              "\" and has Revert, but exact guard match not confirmed") none
        else if bodyHasRevert then
          makeResult preSpec.base .UNVERIFIED
            ("Method has Revert checks but couldn't match to precondition: " ++ expr) none
        else
          makeResult preSpec.base .VIOLATED
            ("No guard check found for precondition: " ++ expr)
            (some "Add an if-check that throws Revert when the precondition is violated")

/-- `verifier.ts` `verifyCEI`. -/
def verifyCEI (spec : PostconditionSpec) (method : MethodDecl)
    (storedFields : List String) : VerificationResult :=
  let externalCalls := findBlockchainCalls method
  let stateWrites := findStateWrites method storedFields
  if externalCalls.isEmpty then
    makeResult spec.base .VERIFIED
      (spec.methodName ++ "() has no external calls — CEI trivially satisfied") none
  else if stateWrites.isEmpty then
    makeResult spec.base .VERIFIED
      (spec.methodName ++ "() has no state writes — CEI trivially satisfied") none
  else
    let violations :=
      (externalCalls.map fun c =>
        (stateWrites.filter fun w => w.pos > c.pos).map fun w =>
          "State write '" ++ w.text ++ "' after Blockchain.call()").flatten
    if 0 < violations.length then
      makeResult spec.base .VIOLATED
        ("CEI violation in " ++ spec.methodName ++ "(): " ++
          String.intercalate "; " violations)
        (some "Move all state writes before external calls")
    else
      makeResult spec.base .VERIFIED
        (spec.methodName ++
          "() follows CEI pattern — all state writes before external calls") none

/-- Fields of the postcondition not textually written in the body
(neither `this.<f>.value` nor `this.<f>.set`); the `unmodified` list of
`verifyPostcondition`. -/
def unmodifiedFields (postSpec : PostconditionSpec) (method : MethodDecl) : List String :=
  postSpec.fieldReferences.filter fun f =>
    !strContains method.bodyText ("this." ++ f ++ ".value") &&
    !strContains method.bodyText ("this." ++ f ++ ".set")

/-- `verifier.ts` `verifyPostcondition`. -/
def verifyPostcondition (postSpec : PostconditionSpec) (method : MethodDecl)
    (storedFields : List String) : VerificationResult :=
  if postSpec.isCEI then verifyCEI postSpec method storedFields
  else
    let bodyText := getMethodBodyText method
    let unmodified := unmodifiedFields postSpec method
    if 0 < postSpec.fieldReferences.length ∧ 0 < unmodified.length then
      makeResult postSpec.base .UNVERIFIED
        ("Postcondition references fields [" ++ String.intercalate ", " unmodified ++
          "] that are not modified in " ++ postSpec.methodName ++ "()")
        (some "Ensure the method modifies these fields or update the postcondition")
    else if strContains postSpec.base.expression "return" &&
            !strContains bodyText "return" then
      makeResult postSpec.base .VIOLATED
        ("Postcondition references return value but method " ++ postSpec.methodName ++
          "() has no return statement") none
    else if 0 < postSpec.oldReferences.length then
      makeResult postSpec.base .UNVERIFIED
        "Postcondition uses old() references — requires symbolic execution for full verification"
        (some ("Fields referenced via old(): " ++
          String.intercalate ", " postSpec.oldReferences))
    else if 0 < postSpec.fieldReferences.length then
      makeResult postSpec.base .UNVERIFIED
        ("Postcondition \"" ++ postSpec.base.expression ++
          "\" — fields are modified but value correctness requires symbolic execution") none
    else
      makeResult postSpec.base .UNVERIFIED
        ("Postcondition \"" ++ postSpec.base.expression ++
          "\" — structural check passed but full verification requires symbolic execution")
        none

/-- `replace(/\(.*\)$/, '')`: remove the suffix starting at the first `(`
from which a line-terminator-free dot run reaches a final `)`. -/
def parenTailScan (s : List Char) : Nat → List Char → Option Nat
  | _, [] => none
  | p, _ :: t =>
    if (s.drop p).headD ' ' = '(' ∧ s.getLast? = some ')' ∧ p + 2 ≤ s.length ∧
       noLT ((s.drop (p + 1)).dropLast) = true
    then some p
    else parenTailScan s (p + 1) t

def jsStripParenTail (s : String) : String :=
  match parenTailScan s.data 0 s.data with
  | some p => ⟨s.data.take p⟩
  | none => s

/-- `verifier.ts` `verifyCalls`. -/
def verifyCalls (callSpec : CallsSpec) (method : MethodDecl) : VerificationResult :=
  let bodyText := getMethodBodyText method
  let externalCalls := findBlockchainCalls method
  if externalCalls.isEmpty then
    makeResult callSpec.base .VIOLATED
      (callSpec.methodName ++ "() specifies @calls " ++ callSpec.target ++
        " but has no Blockchain.call()") none
  else
    let targetField : String := ⟨dropDotValue (dropThisDot callSpec.target.data)⟩
    let targetReferenced :=
      strContains bodyText callSpec.target || strContains bodyText targetField
    if !targetReferenced then
      makeResult callSpec.base .VIOLATED
        (callSpec.methodName ++ "() specifies @calls to " ++ callSpec.target ++
          " but doesn't reference that target") none
    else
      let calledMethodName := jsStripParenTail callSpec.calledMethod
      let selectorRef :=
        strContains bodyText calledMethodName ||
        strContains bodyText "Selector" ||
        strContains bodyText "encodeSelector"
      if calledMethodName ≠ "" ∧ selectorRef = false then
        makeResult callSpec.base .UNVERIFIED
          (callSpec.methodName ++ "() calls " ++ callSpec.target ++
            " but couldn't verify method '" ++ calledMethodName ++ "' is being called") none
      else
        let checksSuccess :=
          strContains bodyText ".success" ||
          strContains bodyText "result.success" ||
          strContains bodyText "Revert"
        if callSpec.expectation = "must-succeed" ∧ checksSuccess = false then
          makeResult callSpec.base .VIOLATED
            (callSpec.methodName ++
              "() specifies @calls -> must-succeed but doesn't check call result")
            (some "Check result.success and throw Revert on failure")
        else
          makeResult callSpec.base .VERIFIED
            (callSpec.methodName ++ "() calls " ++ callSpec.target ++
              " with result checking") none

/-- `verifier.ts` `verifyStateTransition`. -/
def verifyStateTransition (stateSpec : StateSpec) (method : MethodDecl) :
    VerificationResult :=
  let bodyText := getMethodBodyText method
  let transition := stateSpec.transition
  let fromState := transition.fromState
  let toState := transition.toState
  let isNegatedFrom := atHead ['!'] fromState.data
  let cleanFromState : String :=
    if atHead ['!'] fromState.data then ⟨fromState.data.drop 1⟩ else fromState
  let isNegatedTo := atHead ['!'] toState.data
  let cleanToState : String :=
    if atHead ['!'] toState.data then ⟨toState.data.drop 1⟩ else toState
  let stateRelatedTerms :=
    [jsToLower cleanFromState, jsToLower cleanToState,
     "status", "state", "graduated", "initialized", "active"]
  let bodyLower := jsToLower bodyText
  let hasStateRef := stateRelatedTerms.any fun t => strContains bodyLower t
  if !hasStateRef then
    makeResult stateSpec.base .UNVERIFIED
      ("State transition " ++ fromState ++ " -> " ++ toState ++ " in " ++
        String.intercalate ", " transition.methods ++
        "(): no state-related field references found") none
  else
    let hasGuard := strContains bodyText "Revert" || strContains bodyText "throw"
    if !hasGuard then
      makeResult stateSpec.base .UNVERIFIED
        ("State transition " ++ fromState ++ " -> " ++ toState ++
          ": method has state references but no guard/revert for invalid states") none
    else
      let tailResult :=
        if cleanFromState = cleanToState ∧ isNegatedFrom = isNegatedTo then
          makeResult stateSpec.base .UNVERIFIED
            ("Self-transition " ++ fromState ++ " -> " ++ toState ++
              ": method has state guards but self-transition verification requires deeper analysis")
            none
        else
          makeResult stateSpec.base .UNVERIFIED
            ("State transition " ++ fromState ++ " -> " ++ toState ++
              ": structural checks pass but full state machine verification requires deeper analysis")
            none
      match transition.condition with
      | some cond =>
        let conditionTerms := extractKeyTerms cond
        let conditionMatched :=
          conditionTerms.any fun t => strContains bodyLower (jsToLower t)
        if !conditionMatched then
          makeResult stateSpec.base .UNVERIFIED
            ("State transition condition \"" ++ cond ++ "\" not found in method body") none
        else tailResult
      | none => tailResult

/-- `verifier.ts` `verifyInvariant`.  The method map has unique keys, so the
source's re-lookup of each modifying method name returns the paired
declaration. -/
def verifyInvariant (invariant : InvariantSpec) (classDecl : ClassDecl)
    (allMethods : List (String × MethodDecl)) : List VerificationResult :=
  if invariant.fieldReferences.isEmpty then
    [makeResult invariant.base .UNVERIFIED
      ("Invariant \"" ++ invariant.base.expression ++
        "\" references no this.X.value fields — can't verify statically") none]
  else
    let modifying := allMethods.filter fun nm =>
      invariant.fieldReferences.any fun field =>
        strContains nm.2.bodyText ("this." ++ field ++ ".value") ||
        strContains nm.2.bodyText ("this." ++ field ++ ".set")
    if modifying.isEmpty then
      [makeResult invariant.base .VERIFIED
        ("Invariant \"" ++ invariant.base.expression ++
          "\" — no methods modify the referenced fields (trivially maintained)") none]
    else
      modifying.map fun nm =>
        let hasChecks :=
          strContains nm.2.bodyText "Revert" || strContains nm.2.bodyText "throw"
        if hasChecks then
          makeResult invariant.base .UNVERIFIED
            ("Invariant \"" ++ invariant.base.expression ++ "\" — " ++ nm.1 ++
              "() modifies fields [" ++
              String.intercalate ", " invariant.fieldReferences ++
              "] and has guards, but full invariant maintenance requires symbolic execution")
            none
        else
          makeResult invariant.base .UNVERIFIED
            ("Invariant \"" ++ invariant.base.expression ++ "\" — " ++ nm.1 ++
              "() modifies fields [" ++
              String.intercalate ", " invariant.fieldReferences ++
              "] with NO guard checks")
            (some ("Consider adding validation to maintain the invariant in " ++
              nm.1 ++ "()"))

/-- One attempted match of `/Selector\s*=\s*(?:0x[0-9a-fA-F]+|\d+)/`. -/
def selectorAssignAt (l : List Char) : Bool :=
  atHead "Selector".data l &&
  (let r := (l.drop 8).dropWhile isJsSpace
   (r.headD ' ' == '=') &&
   (let r2 := (r.drop 1).dropWhile isJsSpace
    (atHead "0x".data r2 &&
      (let c := (r2.drop 2).headD ' '
       c.isDigit || ('a' ≤ c ∧ c ≤ 'f') || ('A' ≤ c ∧ c ≤ 'F'))) ||
    ((r2.headD ' ').isDigit)))

/-- Does `p` hold on some suffix of `l` (a regex `test`)? -/
def anySuffix (p : List Char → Bool) : List Char → Bool
  | [] => p []
  | c :: rest => p (c :: rest) || anySuffix p rest

/-- One attempted match of `/\.approve\s*\(/`. -/
def approveAt (l : List Char) : Bool :=
  atHead ".approve".data l && ((l.drop 8).dropWhile isJsSpace).headD ' ' == '('

/-- All matches of `/Address\.fromString\s*\(([^)]*)\)/g` whose captured
argument list splits on `,` into fewer than two pieces (no comma), i.e. the
violations collected by the `address-two-params` check; each violation is
the matched text. -/
def addrViolationsL (l : List Char) : List String :=
  if h : l = [] then []
  else
    if atHead "Address.fromString".data l then
      let r := (l.drop 18).dropWhile isJsSpace
      if r.headD 'x' = '(' then
        let cap := (r.drop 1).takeWhile fun c => c ≠ ')'
        let rest := (r.drop 1).dropWhile fun c => c ≠ ')'
        if !rest.isEmpty then
          let matched : String :=
            ⟨"Address.fromString".data ++ (l.drop 18).takeWhile isJsSpace ++
              '(' :: cap ++ [')']⟩
          if cap.contains ',' then addrViolationsL (rest.drop 1)
          else matched :: addrViolationsL (rest.drop 1)
        else addrViolationsL (l.drop 1)
      else addrViolationsL (l.drop 1)
    else addrViolationsL (l.drop 1)
termination_by l.length
decreasing_by
  all_goals have h3 : 0 < l.length := List.length_pos.mpr h
  all_goals first
    | (simp only [List.length_drop]; omega)
    | (have h2 := dropWhile_len_le isJsSpace (l.drop 18)
       have h1 := dropWhile_len_le (fun c => c ≠ ')')
         (((l.drop 18).dropWhile isJsSpace).drop 1)
       simp only [List.length_drop] at h1 h2 ⊢
       omega)

/-- `verifier.ts` `verifyOpnetConstraint`. -/
def verifyOpnetConstraint (spec : OpnetSpec) (classDecl : ClassDecl) :
    VerificationResult :=
  let classText := classDecl.text
  if spec.constraint = "selectors-sha256" then
    let hasEncodeSelector := strContains classText "encodeSelector"
    let hasHardcodedSelector := anySuffix selectorAssignAt classText.data
    if hasHardcodedSelector && !hasEncodeSelector then
      makeResult spec.base .VIOLATED
        "Contract uses hardcoded selectors instead of encodeSelector() (SHA256)"
        (some "Replace hardcoded selectors with encodeSelector(\"methodName\")")
    else if hasEncodeSelector then
      makeResult spec.base .VERIFIED
        "Contract uses encodeSelector() for SHA256-based selectors" none
    else
      makeResult spec.base .UNVERIFIED
        "Could not determine selector encoding method" none
  else if spec.constraint = "address-two-params" then
    let violations := addrViolationsL classText.data
    if 0 < violations.length then
      makeResult spec.base .VIOLATED
        ("Address.fromString() called with single parameter: " ++
          String.intercalate ", " violations)
        (some "Use Address.fromString(str, network) with two parameters")
    else if strContains classText "Address.fromString" then
      makeResult spec.base .VERIFIED
        "All Address.fromString() calls use two parameters" none
    else
      makeResult spec.base .VERIFIED
        "No Address.fromString() calls found (constraint trivially satisfied)" none
  else if spec.constraint = "no-approve" then
    if anySuffix approveAt classText.data then
      makeResult spec.base .VIOLATED
        "Contract uses .approve() — should use increaseAllowance() instead"
        (some "Replace .approve() calls with .increaseAllowance()")
    else
      makeResult spec.base .VERIFIED "Contract does not use .approve()" none
  else if spec.constraint = "csv-timelocks" then
    makeResult spec.base .UNVERIFIED
      "CSV timelock verification requires Bitcoin script analysis — not available in static checker"
      none
  else
    makeResult spec.base .UNVERIFIED
      ("Unknown @opnet constraint: " ++ spec.constraint) none

/-! ## The verification engine (`verifier.ts` `verifyContract`) -/

/-- `Map.set` on an association list: replace in place or append. -/
def setAssoc (l : List (String × MethodDecl)) (k : String) (v : MethodDecl) :
    List (String × MethodDecl) :=
  if l.any fun p => p.1 = k then l.map fun p => if p.1 = k then (k, v) else p
  else l ++ [(k, v)]

/-- The `allMethods` map of `verifyContract`: insertion-ordered, last value
per name wins. -/
def buildMethodMap (ms : List MethodDecl) : List (String × MethodDecl) :=
  ms.foldl (fun acc m => setAssoc acc (getMethodName m) m) []

/-- Step 3 of `verifyContract`: the results for one entry of
`contract.methods`.  When the method is absent, the source emits `MISSING`
for the access spec, preconditions, postconditions and calls specs only
(state transitions and temporal specs produce nothing). -/
def verifyMethodSpecs (contract : ContractSpecs) (methodName : String)
    (methodSpecs : MethodSpecs) (allMethods : List (String × MethodDecl))
    (storedFieldNames : List String) : List VerificationResult :=
  match List.lookup methodName allMethods with
  | none =>
    let msg := "Method " ++ methodName ++ "() not found in class " ++ contract.className
    (match methodSpecs.access with
     | some a => [makeResult a.base .MISSING msg none]
     | none => []) ++
    (methodSpecs.preconditions.map fun p => makeResult p.base .MISSING msg none) ++
    (methodSpecs.postconditions.map fun p => makeResult p.base .MISSING msg none) ++
    (methodSpecs.calls.map fun c => makeResult c.base .MISSING msg none)
  | some method =>
    (match methodSpecs.access with
     | some a => [verifyAccess a method]
     | none => []) ++
    (methodSpecs.preconditions.map fun p => verifyPrecondition p method) ++
    (methodSpecs.postconditions.map fun p =>
      verifyPostcondition p method storedFieldNames) ++
    (methodSpecs.calls.map fun c => verifyCalls c method) ++
    (methodSpecs.stateTransitions.map fun st => verifyStateTransition st method) ++
    (methodSpecs.temporal.map fun tm =>
      makeResult tm.base .UNVERIFIED
        ("Temporal property \"" ++ tm.condition ++
          "\" requires runtime monitoring — not verifiable statically in V1") none)

/-- Step 4 of `verifyContract`: contract-level state transitions not already
verified as part of a method.  The source compares `r.spec === st` by object
identity, modelled by `uid` equality. -/
def contractStateStep (allMethods : List (String × MethodDecl))
    (results : List VerificationResult) (st : StateSpec) : List VerificationResult :=
  if results.any fun r => r.spec.uid = st.base.uid then results
  else
    results ++ (st.transition.methods.map fun methodName =>
      match List.lookup methodName allMethods with
      | some method => verifyStateTransition st method
      | none =>
        makeResult st.base .MISSING
          ("State transition method " ++ methodName ++ "() not found") none)

/-- The results list of `verifyContract`; the source accumulates `results`
imperatively and calls `buildReport` at each of its two return sites. -/
def verifyContractResults (contract : ContractSpecs) (sourceFile : SourceFileModel) :
    List VerificationResult :=
  let classes := findClassDeclarations sourceFile
  match classes.find? fun c => getClassName c = contract.className with
  | none =>
    contract.invariants.map fun inv =>
      makeResult inv.base .MISSING
        ("Class " ++ contract.className ++ " not found in source") none
  | some classDecl =>
    let allMethods := buildMethodMap (getClassMethods classDecl)
    let storedFieldNames := detectStoredFieldNames classDecl
    let invResults :=
      (contract.invariants.map fun inv =>
        verifyInvariant inv classDecl allMethods).flatten
    let opnetResults :=
      contract.opnetConstraints.map fun o => verifyOpnetConstraint o classDecl
    let methodResults :=
      (contract.methods.map fun ms =>
        verifyMethodSpecs contract ms.1 ms.2 allMethods storedFieldNames).flatten
    contract.stateTransitions.foldl (contractStateStep allMethods)
      (invResults ++ opnetResults ++ methodResults)

/-- `verifier.ts` `verifyContract`. -/
def verifyContract (contract : ContractSpecs) (sourceFile : SourceFileModel) :
    VerificationReport :=
  buildReport contract (verifyContractResults contract sourceFile)

/-! ## Concrete example inputs used by the theorems below -/

def annGhostInv : SpecAnn := ⟨1, .invariant, "this.total.value >= 0", none, "f.ts", 3, 1⟩

def annGhostPre : SpecAnn := ⟨2, .pre, "amount > 0", none, "f.ts", 10, 1⟩

def annGhostOp : SpecAnn := ⟨3, .opnet, "no-approve", none, "f.ts", 1, 1⟩

/-- A contract record whose class name matches no class declaration, carrying
one invariant, one domain constraint and one method-level precondition:
three attached specs in total. -/
def ghostContract : ContractSpecs :=
  { className := "Ghost", file := "f.ts"
    invariants := [⟨annGhostInv, ["total"]⟩]
    stateTransitions := []
    opnetConstraints := [⟨annGhostOp, "no-approve"⟩]
    methods := [("doIt",
      { methodName := "doIt", preconditions := [⟨annGhostPre, "doIt"⟩]
        postconditions := [], access := none, calls := []
        stateTransitions := [], temporal := [] })] }

/-- A source file containing only a class named `Other`. -/
def sfGhost : SourceFileModel := ⟨[⟨"Other", "class Other \x7b\x7d", [], []⟩]⟩

/-- A precondition whose expression mentions no guard-helper name and no
status/state keyword. -/
def preFuzzy : PreconditionSpec := ⟨⟨10, .pre, "amount > 100", none, "f.ts", 5, 1⟩, "buy"⟩

/-- A method whose only guard condition shares both key terms with
`preFuzzy`. -/
def mFuzzy : MethodDecl :=
  { name := "buy"
    bodyText := "\x7b if (amount <= 100) \x7b throw new Revert(errSmall); \x7d \x7d"
    blockchainCalls := []
    writeSites := []
    guardChecks := [⟨"amount <= 100", "err", 2⟩] }

/-- An invariant with an empty field-reference list. -/
def invNoFields : InvariantSpec :=
  ⟨⟨60, .invariant, "totalSupply == cap", none, "f.ts", 2, 1⟩, []⟩

def clsEmpty : ClassDecl := ⟨"Vault", "class Vault \x7b\x7d", [], []⟩

def accessDep : AccessSpec :=
  ⟨⟨30, .access, "deployer-only", none, "f.ts", 7, 1⟩, "deployer-only", "withdraw"⟩

def mGuarded : MethodDecl :=
  { name := "withdraw"
    bodyText := "\x7b this.onlyDeployer(Blockchain.tx.sender); \x7d"
    blockchainCalls := []
    writeSites := []
    guardChecks := [⟨"this.onlyDeployer(Blockchain.tx.sender)", "", 2⟩] }

/-- A non-CEI postcondition mentioning the return value. -/
def postReturn : PostconditionSpec :=
  ⟨⟨50, .post, "return > 0", none, "f.ts", 11, 1⟩, "getX", false, [], []⟩

/-- A method whose body has no return statement. -/
def mNoReturn : MethodDecl :=
  { name := "getX", bodyText := "\x7b this.x.value = 1; \x7d"
    blockchainCalls := [], writeSites := [], guardChecks := [] }

def annCEI : SpecAnn := ⟨40, .ensures, " cei ", none, "f.ts", 9, 1⟩

def pDefault : PostconditionSpec := ⟨⟨0, .post, "", none, "", 0, 0⟩, "", false, [], []⟩

/-- The postcondition built from the `@ensures  cei ` annotation. -/
def postCEIexample : PostconditionSpec :=
  ((buildMethodSpecs "m" [annCEI] "f.ts").postconditions).headD pDefault

def detContract : ContractSpecs :=
  { className := "Vault", file := "f.ts"
    invariants := [⟨annGhostInv, ["total"]⟩]
    stateTransitions := []
    opnetConstraints := [⟨annGhostOp, "no-approve"⟩]
    methods := [("withdraw",
      { methodName := "withdraw", preconditions := []
        postconditions := [], access := some accessDep, calls := []
        stateTransitions := [], temporal := [] })] }

def detSf : SourceFileModel := ⟨[⟨"Vault", "class Vault \x7b \x7d", [mGuarded], ["total"]⟩]⟩

/-! ## Support lemmas -/

theorem makeResult_status (s : SpecAnn) (st : VStatus) (msg : String)
    (d : Option String) : (makeResult s st msg d).status = st := rfl

theorem atHead_iff_ex (p l : List Char) : atHead p l = true ↔ ∃ t, l = p ++ t := by
  induction p generalizing l with
  | nil => simp [atHead]
  | cons a as ih =>
    cases l with
    | nil => simp [atHead]
    | cons b bs =>
      simp only [atHead, Bool.and_eq_true, beq_iff_eq, ih, List.cons_append,
        List.cons.injEq]
      constructor
      · rintro ⟨rfl, t, rfl⟩; exact ⟨t, rfl, rfl⟩
      · rintro ⟨t, rfl, rfl⟩; exact ⟨rfl, t, rfl⟩

theorem hasSub_iff (l pat : List Char) :
    hasSub l pat = true ↔ ∃ a b, l = a ++ pat ++ b := by
  induction l with
  | nil =>
    simp only [hasSub, List.isEmpty_iff]
    constructor
    · rintro rfl; exact ⟨[], [], rfl⟩
    · rintro ⟨a, b, hab⟩
      rcases List.append_eq_nil.mp (List.append_eq_nil.mp hab.symm).1 with ⟨-, h2⟩
      exact h2
  | cons c cs ih =>
    simp only [hasSub, Bool.or_eq_true, atHead_iff_ex, ih]
    constructor
    · rintro (⟨t, ht⟩ | ⟨a, b, hab⟩)
      · exact ⟨[], t, by simp [ht]⟩
      · exact ⟨c :: a, b, by simp [hab]⟩
    · rintro ⟨a, b, hab⟩
      cases a with
      | nil => exact Or.inl ⟨b, by simpa using hab⟩
      | cons x xs =>
        simp only [List.cons_append, List.cons.injEq] at hab
        exact Or.inr ⟨xs, b, hab.2⟩

theorem hasSub_trans {l p q : List Char} (h1 : hasSub l p = true)
    (h2 : hasSub p q = true) : hasSub l q = true := by
  rw [hasSub_iff] at h1 h2 ⊢
  obtain ⟨a, b, rfl⟩ := h1
  obtain ⟨u, v, rfl⟩ := h2
  exact ⟨a ++ u, v ++ b, by simp⟩

theorem strContains_trans {s p q : String} (h1 : strContains s p = true)
    (h2 : hasSub p.data q.data = true) : strContains s q = true :=
  hasSub_trans h1 h2

theorem flatten_pos_iff (calls : List CallSite) (writes : List WriteSite)
    (f : WriteSite → String) :
    0 < ((calls.map fun c =>
        (writes.filter fun w => w.pos > c.pos).map f).flatten).length ↔
      ∃ w ∈ writes, ∃ c ∈ calls, w.pos > c.pos := by
  induction calls with
  | nil => simp
  | cons c cs ih =>
    simp only [List.map_cons, List.flatten_cons, List.length_append, List.length_map]
    have hsplit : ∀ a b : Nat, 0 < a + b ↔ 0 < a ∨ 0 < b := fun a b => by omega
    rw [hsplit, ih, List.length_pos_iff_exists_mem]
    constructor
    · rintro (⟨w, hw⟩ | ⟨w, hww, c2, hc2, hlt⟩)
      · rw [List.mem_filter] at hw
        exact ⟨w, hw.1, c, List.mem_cons_self c cs, by simpa using hw.2⟩
      · exact ⟨w, hww, c2, List.mem_cons_of_mem c hc2, hlt⟩
    · rintro ⟨w, hww, c2, hc2, hlt⟩
      rcases List.mem_cons.mp hc2 with rfl | hc2
      · exact Or.inl ⟨w, List.mem_filter.mpr ⟨hww, by simpa using hlt⟩⟩
      · exact Or.inr ⟨w, hww, c2, hc2, hlt⟩

theorem foldl_tallyStep (rs : List VerificationResult) : ∀ s : ReportSummary,
    rs.foldl tallyStep s =
      { verified := s.verified + (rs.filter fun r => r.status == .VERIFIED).length
        unverified := s.unverified + (rs.filter fun r => r.status == .UNVERIFIED).length
        violated := s.violated + (rs.filter fun r => r.status == .VIOLATED).length
        missing := s.missing + (rs.filter fun r => r.status == .MISSING).length
        total := s.total } := by
  induction rs with
  | nil => intro s; simp
  | cons r rs ih =>
    intro s
    rw [List.foldl_cons, ih]
    cases hr : r.status <;>
      simp [tallyStep, hr, List.filter_cons, ReportSummary.mk.injEq] <;> omega

theorem filter_status_partition (rs : List VerificationResult) :
    (rs.filter fun r => r.status == VStatus.VERIFIED).length +
    (rs.filter fun r => r.status == VStatus.UNVERIFIED).length +
    (rs.filter fun r => r.status == VStatus.VIOLATED).length +
    (rs.filter fun r => r.status == VStatus.MISSING).length = rs.length := by
  induction rs with
  | nil => simp
  | cons r rs ih =>
    cases hr : r.status <;> simp [List.filter_cons, hr] <;> omega

/-! ## Claim theorems -/

/-- Claim C1: against the claim that a contract whose class name matches no class
declaration yields one `MISSING` result per attached spec (so as many
results as the contract has specs), the code emits `MISSING` only for the
invariants: `ghostContract` has three attached specs (one invariant, one
domain constraint, one precondition) yet its report contains exactly one
result, the invariant's `MISSING`, and its summary counts a total of 1. -/
theorem verifyContract_missing_class_drops_noninvariant_specs :
    (verifyContract ghostContract sfGhost).results.map (fun r => r.status) =
      [VStatus.MISSING] ∧
    (verifyContract ghostContract sfGhost).summary.total = 1 ∧
    ghostContract.invariants.length + ghostContract.opnetConstraints.length +
      (ghostContract.methods.map fun ms =>
        (match ms.2.access with | some _ => 1 | none => 0) +
        ms.2.preconditions.length + ms.2.postconditions.length +
        ms.2.calls.length + ms.2.stateTransitions.length +
        ms.2.temporal.length).sum = 3 := by
  decide

/-- Claim C5: `parseStateTransition` on the two documented examples: a guarded
transition with a single method and a negated self-transition with two
methods and no condition. -/
theorem parseStateTransition_examples :
    parseStateTransition "ACTIVE -> GRADUATED : buy() [when x >= y]" =
      { fromState := "ACTIVE", toState := "GRADUATED", methods := ["buy"]
        condition := some "x >= y" } ∧
    parseStateTransition "!G -> !G : buy(), sell()" =
      { fromState := "!G", toState := "!G", methods := ["buy", "sell"]
        condition := none } := by
  decide

/-- Claim C9: verification is deterministic — `verifyContract` is a pure function
of the contract record and the syntax tree, so two runs over equal inputs
produce equal reports (results and summaries included). -/
theorem verifyContract_deterministic (c1 c2 : ContractSpecs)
    (sf1 sf2 : SourceFileModel) (hc : c1 = c2) (hs : sf1 = sf2) :
    verifyContract c1 sf1 = verifyContract c2 sf2 := by
  subst hc; subst hs; rfl

theorem verifyContract_deterministic_witness :
    verifyContract detContract detSf = verifyContract detContract detSf :=
  verifyContract_deterministic detContract detContract detSf detSf rfl rfl

/-- Claim C10: in every report produced by `verifyContract`, `summary.total`
equals the length of the results list, each counter counts the results with
the corresponding status, and the four counters sum to the total. -/
theorem verifyContract_summary_consistent (contract : ContractSpecs)
    (sf : SourceFileModel) :
    (verifyContract contract sf).summary.total =
      (verifyContract contract sf).results.length ∧
    (verifyContract contract sf).summary.verified =
      ((verifyContract contract sf).results.filter fun r =>
        r.status == VStatus.VERIFIED).length ∧
    (verifyContract contract sf).summary.unverified =
      ((verifyContract contract sf).results.filter fun r =>
        r.status == VStatus.UNVERIFIED).length ∧
    (verifyContract contract sf).summary.violated =
      ((verifyContract contract sf).results.filter fun r =>
        r.status == VStatus.VIOLATED).length ∧
    (verifyContract contract sf).summary.missing =
      ((verifyContract contract sf).results.filter fun r =>
        r.status == VStatus.MISSING).length ∧
    (verifyContract contract sf).summary.total =
      (verifyContract contract sf).summary.verified +
      (verifyContract contract sf).summary.unverified +
      (verifyContract contract sf).summary.violated +
      (verifyContract contract sf).summary.missing := by
  have hrep : verifyContract contract sf =
      buildReport contract (verifyContractResults contract sf) := rfl
  rw [hrep]
  unfold buildReport
  rw [foldl_tallyStep]
  refine ⟨rfl, by simp, by simp, by simp, by simp, ?_⟩
  simpa using (filter_status_partition (verifyContractResults contract sf)).symm

/-- Claim C2: `verifyCEI` returns `VERIFIED` when the method has no external-call
sites or no state-write sites, and otherwise returns `VIOLATED` exactly when
some state write's source position is greater than some external call's
source position, returning `VERIFIED` otherwise. -/
theorem verifyCEI_status_characterization (spec : PostconditionSpec)
    (m : MethodDecl) (storedFields : List String) :
    (verifyCEI spec m storedFields).status =
      if (findBlockchainCalls m).isEmpty then VStatus.VERIFIED
      else if (findStateWrites m storedFields).isEmpty then VStatus.VERIFIED
      else if (findStateWrites m storedFields).any (fun w =>
          (findBlockchainCalls m).any fun c => w.pos > c.pos) then VStatus.VIOLATED
      else VStatus.VERIFIED := by
  by_cases h1 : (findBlockchainCalls m).isEmpty
  · simp [verifyCEI, h1, makeResult]
  · by_cases h2 : (findStateWrites m storedFields).isEmpty
    · simp [verifyCEI, h1, h2, makeResult]
    · have hiff := flatten_pos_iff (findBlockchainCalls m)
        (findStateWrites m storedFields)
        (fun w => "State write '" ++ w.text ++ "' after Blockchain.call()")
      have hany : ((findStateWrites m storedFields).any fun w =>
          (findBlockchainCalls m).any fun c => w.pos > c.pos) = true ↔
          ∃ w ∈ findStateWrites m storedFields,
            ∃ c ∈ findBlockchainCalls m, w.pos > c.pos := by
        simp [List.any_eq_true]
      by_cases h3 : ∃ w ∈ findStateWrites m storedFields,
          ∃ c ∈ findBlockchainCalls m, w.pos > c.pos
      · simp only [verifyCEI, h1, h2, Bool.false_eq_true, if_false,
          hany.mpr h3, if_true]
        rw [if_pos (hiff.mpr h3)]
        simp [makeResult]
      · have hfalse : ((findStateWrites m storedFields).any fun w =>
            (findBlockchainCalls m).any fun c => w.pos > c.pos) = false := by
          rw [Bool.eq_false_iff]
          intro hc; exact h3 (hany.mp hc)
        simp only [verifyCEI, h1, h2, Bool.false_eq_true, if_false, hfalse]
        rw [if_neg (fun hc => h3 (hiff.mp hc))]
        simp [makeResult]

/-- Claim C4: `verifyInvariant` never produces a `VIOLATED` result, and an
invariant with an empty field-reference list yields exactly one
`UNVERIFIED` result. -/
theorem verifyInvariant_never_VIOLATED (inv : InvariantSpec) (cls : ClassDecl)
    (ms : List (String × MethodDecl)) :
    ((verifyInvariant inv cls ms).all fun r => !(r.status == VStatus.VIOLATED)) = true ∧
    (inv.fieldReferences = [] →
      (verifyInvariant inv cls ms).map (fun r => r.status) = [VStatus.UNVERIFIED]) := by
  by_cases hf : inv.fieldReferences.isEmpty
  · constructor
    · simp [verifyInvariant, hf, makeResult]
    · intro h; simp [verifyInvariant, hf, makeResult]
  · constructor
    · by_cases hm : (ms.filter fun nm =>
          inv.fieldReferences.any fun field =>
            strContains nm.2.bodyText ("this." ++ field ++ ".value") ||
            strContains nm.2.bodyText ("this." ++ field ++ ".set")).isEmpty
      · simp [verifyInvariant, hf, hm, makeResult]
      · simp only [verifyInvariant, hf, hm, Bool.false_eq_true, if_false]
        rw [List.all_eq_true]
        intro r hr
        rw [List.mem_map] at hr
        obtain ⟨nm, hnm, rfl⟩ := hr
        by_cases hc : (strContains nm.2.bodyText "Revert" ||
            strContains nm.2.bodyText "throw") = true <;>
          simp [hc, makeResult]
    · intro h
      exact absurd (List.isEmpty_iff.mpr h) hf

theorem verifyInvariant_never_VIOLATED_witness :
    ((verifyInvariant invNoFields clsEmpty []).all fun r =>
      !(r.status == VStatus.VIOLATED)) = true ∧
    (verifyInvariant invNoFields clsEmpty []).map (fun r => r.status) =
      [VStatus.UNVERIFIED] :=
  ⟨(verifyInvariant_never_VIOLATED invNoFields clsEmpty []).1,
   (verifyInvariant_never_VIOLATED invNoFields clsEmpty []).2 rfl⟩

/-- Claim C6: for a `deployer-only` access spec on a resolved method,
`verifyAccess` returns `VERIFIED` exactly when the comment-stripped body
contains `onlyDeployer`, or contains both `Blockchain.tx.sender` and a
`deployer`/`owner` token; otherwise it returns `VIOLATED`.  (The source's
additional `this.onlyDeployer` test is subsumed: any body containing
`this.onlyDeployer` contains `onlyDeployer`.) -/
theorem verifyAccess_deployer_only_spec (a : AccessSpec) (m : MethodDecl)
    (h : jsToLower a.level = "deployer-only") :
    (verifyAccess a m).status =
      if (strContains (stripComments m.bodyText) "onlyDeployer" ||
          (strContains (stripComments m.bodyText) "Blockchain.tx.sender" &&
           (strContains (stripComments m.bodyText) "deployer" ||
            strContains (stripComments m.bodyText) "owner"))) = true
      then VStatus.VERIFIED else VStatus.VIOLATED := by
  have hmono : strContains (stripComments m.bodyText) "this.onlyDeployer" = true →
      strContains (stripComments m.bodyText) "onlyDeployer" = true :=
    fun hx => strContains_trans hx (by decide)
  cases hD : strContains (stripComments m.bodyText) "onlyDeployer" with
  | true => simp [verifyAccess, getMethodBodyText, h, hD, makeResult]
  | false =>
    have hD2 : strContains (stripComments m.bodyText) "this.onlyDeployer" = false := by
      rw [Bool.eq_false_iff]
      intro hx
      rw [hmono hx] at hD
      exact Bool.true_eq_false.mp hD
    cases hS : (strContains (stripComments m.bodyText) "Blockchain.tx.sender" &&
        (strContains (stripComments m.bodyText) "deployer" ||
         strContains (stripComments m.bodyText) "owner")) with
    | true => simp [verifyAccess, getMethodBodyText, h, hD, hD2, hS, makeResult]
    | false => simp [verifyAccess, getMethodBodyText, h, hD, hD2, hS, makeResult]

theorem verifyAccess_deployer_only_spec_witness :
    (verifyAccess accessDep mGuarded).status =
      if (strContains (stripComments mGuarded.bodyText) "onlyDeployer" ||
          (strContains (stripComments mGuarded.bodyText) "Blockchain.tx.sender" &&
           (strContains (stripComments mGuarded.bodyText) "deployer" ||
            strContains (stripComments mGuarded.bodyText) "owner"))) = true
      then VStatus.VERIFIED else VStatus.VIOLATED :=
  verifyAccess_deployer_only_spec accessDep mGuarded (by decide)

/-- Claim C7: a non-CEI postcondition never verifies: the result is `VIOLATED`
exactly when every referenced field is textually written in the body, the
expression mentions `return`, and the body has no `return`; in every other
case the result is `UNVERIFIED` — never `VERIFIED`. -/
theorem verifyPostcondition_nonCEI_spec (p : PostconditionSpec) (m : MethodDecl)
    (storedFields : List String) (h : p.isCEI = false) :
    (verifyPostcondition p m storedFields).status ≠ VStatus.VERIFIED ∧
    ((verifyPostcondition p m storedFields).status = VStatus.VIOLATED ↔
      (unmodifiedFields p m = [] ∧
       strContains p.base.expression "return" = true ∧
       strContains m.bodyText "return" = false)) ∧
    ((verifyPostcondition p m storedFields).status = VStatus.VIOLATED ∨
     (verifyPostcondition p m storedFields).status = VStatus.UNVERIFIED) := by
  simp only [verifyPostcondition, h, Bool.false_eq_true, if_false, getMethodBodyText]
  by_cases h1 : unmodifiedFields p m = []
  · have hc1 : ¬(0 < p.fieldReferences.length ∧ 0 < (unmodifiedFields p m).length) := by
      simp [h1]
    rw [if_neg hc1]
    by_cases h2 : (strContains p.base.expression "return" &&
        !strContains m.bodyText "return") = true
    · rw [if_pos h2]
      have h2p : strContains p.base.expression "return" = true ∧
          strContains m.bodyText "return" = false := by
        have h2x := h2
        simp only [Bool.and_eq_true, Bool.not_eq_true'] at h2x
        exact h2x
      simp [makeResult, h1, h2p]
    · rw [if_neg h2]
      have h2f : (strContains p.base.expression "return" &&
          !strContains m.bodyText "return") = false := Bool.eq_false_iff.mpr h2
      have h2p : ¬(strContains p.base.expression "return" = true ∧
          strContains m.bodyText "return" = false) := by
        intro hx
        rw [hx.1, hx.2] at h2f
        exact Bool.true_eq_false.mp h2f
      split_ifs <;> simp [makeResult, h1] <;>
        · intro ha
          cases hb : strContains m.bodyText "return" with
          | false => exact absurd ⟨ha, hb⟩ h2p
          | true => rfl
  · have hpos : 0 < (unmodifiedFields p m).length := List.length_pos.mpr h1
    have hfr : 0 < p.fieldReferences.length :=
      lt_of_lt_of_le hpos (List.length_filter_le _ _)
    rw [if_pos ⟨hfr, hpos⟩]
    simp [makeResult]
    intro hx
    exact absurd hx h1

theorem verifyPostcondition_nonCEI_spec_witness :
    (verifyPostcondition postReturn mNoReturn []).status ≠ VStatus.VERIFIED ∧
    ((verifyPostcondition postReturn mNoReturn []).status = VStatus.VIOLATED ↔
      (unmodifiedFields postReturn mNoReturn = [] ∧
       strContains postReturn.base.expression "return" = true ∧
       strContains mNoReturn.bodyText "return" = false)) ∧
    ((verifyPostcondition postReturn mNoReturn []).status = VStatus.VIOLATED ∨
     (verifyPostcondition postReturn mNoReturn []).status = VStatus.UNVERIFIED) :=
  verifyPostcondition_nonCEI_spec postReturn mNoReturn [] rfl

/-- Claim C3 counterexample: the claim says fuzzy term matching never yields
`VERIFIED`, yet on `preFuzzy`/`mFuzzy` — where none of the specific checks
preceding the fuzzy key-term match applies (the expression contains none of
`ensureOwner`, `onlyDeployer`, `ensureActive`, `status`, `STATUS`,
`state`) — `verifyPrecondition` returns `VERIFIED`, produced by the fuzzy
guard-term match. -/
theorem verifyPrecondition_fuzzy_VERIFIED_cx :
    (verifyPrecondition preFuzzy mFuzzy).status = VStatus.VERIFIED ∧
    strContains (jsTrim preFuzzy.base.expression) "ensureOwner" = false ∧
    strContains (jsTrim preFuzzy.base.expression) "onlyDeployer" = false ∧
    strContains (jsTrim preFuzzy.base.expression) "ensureActive" = false ∧
    strContains (jsTrim preFuzzy.base.expression) "status" = false ∧
    strContains (jsTrim preFuzzy.base.expression) "STATUS" = false ∧
    strContains (jsTrim preFuzzy.base.expression) "state" = false := by
  decide

/-- Claim C3 (amended): `verifyPrecondition` runs its specific guard-helper checks
before fuzzy matching, and a `VERIFIED` result arises only from those
specific checks or from the fuzzy guard-term match (at least half of the
expression's key terms occurring in some guard's terms); the fallback
checks after fuzzy matching never yield `VERIFIED`. -/
theorem verifyPrecondition_VERIFIED_origin (p : PreconditionSpec) (m : MethodDecl)
    (h : (verifyPrecondition p m).status = VStatus.VERIFIED) :
    (strContains (jsTrim p.base.expression) "ensureOwner" = true ∨
     strContains (jsTrim p.base.expression) "onlyDeployer" = true ∨
     strContains (jsTrim p.base.expression) "ensureActive" = true) ∨
    ∃ g ∈ findGuardChecks m,
      fuzzyGuardMatch (extractKeyTerms (jsTrim p.base.expression)) g = true := by
  by_cases h1 : (strContains (jsTrim p.base.expression) "ensureOwner" ||
      strContains (jsTrim p.base.expression) "onlyDeployer") = true
  · left
    rcases (Bool.or_eq_true _ _).mp h1 with ha | hb
    · exact Or.inl ha
    · exact Or.inr (Or.inl hb)
  · by_cases h2 : strContains (jsTrim p.base.expression) "ensureActive" = true
    · exact Or.inl (Or.inr (Or.inr h2))
    · right
      simp only [verifyPrecondition, getMethodBodyText] at h
      rw [if_neg h1, if_neg h2] at h
      cases hfind : (if strContains (jsTrim p.base.expression) "status" ||
            strContains (jsTrim p.base.expression) "STATUS" ||
            strContains (jsTrim p.base.expression) "state"
          then guardHelpers.find? fun hh => strContains m.bodyText hh
          else none) with
      | some helper =>
        rw [hfind] at h
        simp [makeResult] at h
      | none =>
        rw [hfind] at h
        cases hg : List.find?
            (fuzzyGuardMatch (extractKeyTerms (jsTrim p.base.expression)))
            (findGuardChecks m) with
        | some guard =>
          exact ⟨guard, List.mem_of_find?_eq_some hg, List.find?_some hg⟩
        | none =>
          rw [hg] at h
          split_ifs at h <;> simp [makeResult] at h

theorem verifyPrecondition_VERIFIED_origin_witness :
    (strContains (jsTrim preFuzzy.base.expression) "ensureOwner" = true ∨
     strContains (jsTrim preFuzzy.base.expression) "onlyDeployer" = true ∨
     strContains (jsTrim preFuzzy.base.expression) "ensureActive" = true) ∨
    ∃ g ∈ findGuardChecks mFuzzy,
      fuzzyGuardMatch (extractKeyTerms (jsTrim preFuzzy.base.expression)) g = true :=
  verifyPrecondition_VERIFIED_origin preFuzzy mFuzzy (by decide)

/-- Every postcondition accumulated by the `buildMethodSpecs` fold keeps the
ensures-CEI invariant. -/
theorem buildMethodSpecs_foldl_inv (methodName : String) (anns : List SpecAnn) :
    ∀ acc : MethodSpecs,
      (∀ p ∈ acc.postconditions, p.base.tag = SpecTag.ensures →
        jsToUpper (jsTrim p.base.expression) = "CEI" →
        p.isCEI = true ∧ p.oldReferences = [] ∧ p.fieldReferences = []) →
      ∀ p ∈ (anns.foldl (buildMethodSpecsStep methodName) acc).postconditions,
        p.base.tag = SpecTag.ensures →
        jsToUpper (jsTrim p.base.expression) = "CEI" →
        p.isCEI = true ∧ p.oldReferences = [] ∧ p.fieldReferences = [] := by
  induction anns with
  | nil => intro acc hacc; exact hacc
  | cons a as ih =>
    intro acc hacc
    rw [List.foldl_cons]
    refine ih (buildMethodSpecsStep methodName acc a) ?_
    intro p hp htag hCEI
    cases ht : a.tag <;> simp only [buildMethodSpecsStep, ht] at hp
    case invariant => exact hacc p hp htag hCEI
    case pre => exact hacc p hp htag hCEI
    case requires => exact hacc p hp htag hCEI
    case post =>
      rcases List.mem_append.mp hp with hold | hnew
      · exact hacc p hold htag hCEI
      · rcases List.mem_singleton.mp hnew with rfl
        simp at htag
    case ensures =>
      rcases List.mem_append.mp hp with hold | hnew
      · exact hacc p hold htag hCEI
      · rcases List.mem_singleton.mp hnew with rfl
        simp only at hCEI
        simp [hCEI]
    case state => exact hacc p hp htag hCEI
    case access => exact hacc p hp htag hCEI
    case calls => exact hacc p hp htag hCEI
    case temporal => exact hacc p hp htag hCEI
    case opnet => exact hacc p hp htag hCEI

/-- Claim C8: every `ensures` annotation whose expression, trimmed and
uppercased, equals `CEI` produces a `PostconditionSpec` with `isCEI` set
and empty `oldReferences` and `fieldReferences` lists. -/
theorem buildMethodSpecs_ensures_CEI (methodName fileName : String)
    (anns : List SpecAnn) (p : PostconditionSpec)
    (hp : p ∈ (buildMethodSpecs methodName anns fileName).postconditions)
    (ht : p.base.tag = SpecTag.ensures)
    (he : jsToUpper (jsTrim p.base.expression) = "CEI") :
    p.isCEI = true ∧ p.oldReferences = [] ∧ p.fieldReferences = [] :=
  buildMethodSpecs_foldl_inv methodName anns _ (by simp) p hp ht he

theorem buildMethodSpecs_ensures_CEI_witness :
    postCEIexample.isCEI = true ∧ postCEIexample.oldReferences = [] ∧
    postCEIexample.fieldReferences = [] :=
  buildMethodSpecs_ensures_CEI "m" "f.ts" [annCEI] postCEIexample
    (by decide) (by decide) (by decide)

end Opspec

